import Mathlib

/-!
Verification development for the zircon metadata cache and chunkserver RPC
adapters.

The executable source under scrutiny is the Go package `metadatacache`
(ReadEntry / UpdateEntry / DeleteEntry / NewEntry and their bitset and
chunk-number helpers) together with the chunkserver RPC adapter shims
(`proxyChunkserverAsTwirp.Read`, `proxyTwirpAsChunkserver.Read`).

Pieces of the repository that are referenced but whose code is not part of
the available source (the `apis` constants, the `leasing` agent, and the
external `encoding/gob` codec) are modelled from the specification; every
such definition carries a doc comment beginning with `Modelled from the
spec:`.  Machine integers are modelled as `Nat` with explicit `% 2^w`
where Go truncates.  Functions that can hit a Go runtime fault
(out-of-range index, explicit invariant violation) or that consult a
response the oracle trace does not provide return `Option`, with `none`
for the undefined case.
-/

/-- Modelled from the spec: a server name; `apis.ServerName` in the source. -/
abbrev ServerName := String

/-- Byte strings are lists of naturals; genuine Go bytes are below 256 and
theorems that need that bound carry it as a hypothesis. -/
abbrev Bytes := List Nat

/-- Modelled from the spec: the sentinel `apis.NoRedirect`, the
"no redirect" server-name value. -/
def NoRedirect : ServerName := ""

/-- Modelled from the spec: error values crossing the leasing/metadata
boundary.  The spec names the classes (VersionMismatch, NotOwner, NotFound,
Transport/Timeout); the metadata cache itself creates plain message errors
via `errors.New`, modelled by `Err.msg`. -/
inductive Err where
  | versionMismatch
  | notOwner
  | notFound
  | transport
  | msg (s : String)
deriving DecidableEq

/-- Modelled from the spec: `apis.MetadataEntry` holds the replica set (an
ordered list of server addresses, here byte strings) and the most recently
known committed version. -/
structure MetadataEntry where
  replicas : List Bytes
  version : Nat
deriving DecidableEq

/-- Zero value `apis.MetadataEntry{}` returned by the Go code on errors. -/
def MetadataEntry.empty : MetadataEntry := ⟨[], 0⟩

/-! ## A self-delimiting codec, standing in for `encoding/gob`

Modelled from the spec: the source serializes entries with the external
`encoding/gob` package.  The spec requires only that the encoding be a
fixed deterministic record format where "deserialization accepts any slot
whose prefix is a valid encoded record".  We realize that contract with a
concrete length-prefixed base-256 encoding. -/

/-- Modelled from the spec: little-endian base-256 digits of `n`; the first
argument is structural fuel (`n` itself is always enough). -/
def natDigits : Nat → Nat → List Nat
  | _, 0 => []
  | 0, _ + 1 => []
  | fuel + 1, n + 1 => (n + 1) % 256 :: natDigits fuel ((n + 1) / 256)

/-- Modelled from the spec: value of a little-endian base-256 digit list. -/
def natOfDigits : List Nat → Nat
  | [] => 0
  | d :: ds => d + 256 * natOfDigits ds

/-- Modelled from the spec: encode a natural as digit-count followed by its
base-256 digits. -/
def natEnc (n : Nat) : Bytes :=
  (natDigits n n).length :: natDigits n n

/-- Modelled from the spec: decode a natural from the front of a byte
string, returning the remainder. -/
def natDec : Bytes → Option (Nat × Bytes)
  | [] => none
  | k :: rest =>
    if k ≤ rest.length then some (natOfDigits (rest.take k), rest.drop k)
    else none

/-- Modelled from the spec: encode a replica address list, each address
length-prefixed. -/
def encodeAddrs : List Bytes → Bytes
  | [] => []
  | a :: rest => natEnc a.length ++ a ++ encodeAddrs rest

/-- Modelled from the spec: decode `count` length-prefixed addresses from
the front of a byte string. -/
def decodeAddrs : Nat → Bytes → Option (List Bytes × Bytes)
  | 0, l => some ([], l)
  | count + 1, l =>
    match natDec l with
    | none => none
    | some (n, rest) =>
      if n ≤ rest.length then
        match decodeAddrs count (rest.drop n) with
        | none => none
        | some (addrs, rest2) => some (rest.take n :: addrs, rest2)
      else none

/-- Modelled from the spec: the full record encoding of a `MetadataEntry`:
version, replica count, then the replica addresses. -/
def encodeEntry (e : MetadataEntry) : Bytes :=
  natEnc e.version ++ natEnc e.replicas.length ++ encodeAddrs e.replicas

/-- Modelled from the spec: decode a `MetadataEntry` record from the front
of a byte string, returning the remainder. -/
def decodeEntryFrom (l : Bytes) : Option (MetadataEntry × Bytes) :=
  match natDec l with
  | none => none
  | some (v, r1) =>
    match natDec r1 with
    | none => none
    | some (count, r2) =>
      match decodeAddrs count r2 with
      | none => none
      | some (addrs, rest) => some (⟨addrs, v⟩, rest)

/-- Source `deserializeEntry`: decode the record found at the front of the
slot, ignoring the zero padding that follows it. -/
def deserializeEntry (data : Bytes) : Option MetadataEntry :=
  (decodeEntryFrom data).map Prod.fst

/-- Source `serializeEntry`: encode the entry, pad with zero bytes up to
`S` (= `apis.EntrySize`), and fail ("entry missized") when the encoding is
longer than `S`. -/
def serializeEntry (S : Nat) (e : MetadataEntry) : Option Bytes :=
  let enc := encodeEntry e
  if enc.length ≤ S then some (enc ++ List.replicate (S - enc.length) 0)
  else none

/-! ## Chunk-number decomposition and composition

Source constants `apis.EntriesPerBlock` (`E`, a bit-shift count),
`apis.EntrySize` (`S`) and `apis.BitsetSize` (`B`) are deployment-wide
compile-time constants declared outside the available source; they are
passed as explicit parameters, modelled from the spec. -/

/-- Source `chunkToBlockID`: the metadata block a chunk belongs to. -/
def chunkToBlockID (E : Nat) (chunk : Nat) : Nat := chunk >>> E

/-- Source `chunkToEntryNumber`: the index within its metadata block. -/
def chunkToEntryNumber (E : Nat) (chunk : Nat) : Nat :=
  chunk &&& ((1 <<< E) - 1)

/-- Source `entryNumberToOffset`: byte offset of the entry slot inside the
block; the Go computation is carried out in `uint32`. -/
def entryNumberToOffset (S B : Nat) (entryN : Nat) : Nat :=
  ((entryN % 2 ^ 32) * S + B) % 2 ^ 32

/-- Source `chunkToBlockAndOffset`. -/
def chunkToBlockAndOffset (E S B : Nat) (chunk : Nat) : Nat × Nat :=
  (chunkToBlockID E chunk, entryNumberToOffset S B (chunkToEntryNumber E chunk))

/-- Source `entryAndBlockToChunkNum`; the Go code raises a runtime fault
("broken invariant for chunk location") when `metachunk = 0` or the index
is out of range, modelled by `none`.  The `uint64` shift truncates. -/
def entryAndBlockToChunkNum (E : Nat) (metachunk index : Nat) : Option Nat :=
  if metachunk = 0 ∨ (1 <<< E) ≤ index then none
  else some (((metachunk <<< E) % 2 ^ 64) ||| index)

/-! ## Allocation bitset helpers -/

/-- Source `getBitsetInData`: whether a chunk is allocated; the Go code
indexes `bitset[index / 8]`, a runtime fault when out of range, modelled
by `none`. -/
def getBitsetInData (bitset : Bytes) (index : Nat) : Option Bool :=
  match bitset[index / 8]? with
  | none => none
  | some cell => some (decide (cell &&& (1 <<< (index % 8)) ≠ 0))

/-- Source `updateBitsetInData`: write parameters `(offset, data)` that
set or clear one allocation bit; the offset is computed in `uint32`. -/
def updateBitsetInData (bitset : Bytes) (index : Nat) (value : Bool) :
    Option (Nat × Bytes) :=
  match bitset[index / 8]? with
  | none => none
  | some cell =>
    let mask := 1 <<< (index % 8)
    let cell2 := if value then cell ||| mask else cell &&& (mask ^^^ 255)
    some ((index / 8) % 2 ^ 32, [cell2])

/-- Source `findFirstZero` unrolled: scan the 8 bits of a byte for the
lowest-order zero; the Go code raises "had no zeroes!" after 8 iterations,
modelled by `none`. -/
def findFirstZeroAux : Nat → Nat → Nat → Option Nat
  | 0, _, _ => none
  | fuel + 1, x, i =>
    if x &&& 1 = 0 then some i else findFirstZeroAux fuel (x >>> 1) (i + 1)

/-- Source `findFirstZero`. -/
def findFirstZero (x : Nat) : Option Nat := findFirstZeroAux 8 x 0

/-- Source `findAvailableCell`: linear scan over bitset cells skipping
`0xFF`, returning `(index, found)`. -/
def findAvailableCell : Bytes → Option (Nat × Bool)
  | [] => some (0, false)
  | c :: rest =>
    if c ≠ 255 then
      match findFirstZero c with
      | some z => some (z, true)
      | none => none
    else
      match findAvailableCell rest with
      | some (n, true) => some (n + 8, true)
      | some (_, false) => some (0, false)
      | none => none

/-! ## The leasing agent as an oracle trace

Modelled from the spec: the `leasing.Leasing` agent (Read / Write /
ListLeases / GetAnyUnleased, spec section 4.3) is repository code outside
the available source.  Each call the metadata cache makes consumes one
response from an oracle trace; `none` results mean the trace does not
describe the call pattern actually made (never a behaviour of the code).
The calls issued, with their computed arguments, are returned as a log so
that theorems can speak about the writes the code performs. -/

/-- Modelled from the spec: one oracle response of the leasing agent. -/
inductive LeaseResp where
  | readOk (data : Bytes) (version : Nat)
  | readErr (owner : ServerName) (e : Err)
  | writeOk (newVersion : Nat)
  | writeErr (owner : ServerName) (e : Err)
  | leasesOk (blocks : List Nat)
  | leasesErr (e : Err)
  | unleasedOk (metachunk : Nat)
  | unleasedErr (e : Err)
deriving DecidableEq

/-- Record of one call the metadata cache issued to the leasing agent. -/
inductive LeaseCall where
  | read (metachunk : Nat)
  | write (metachunk version offset : Nat) (data : Bytes)
  | listLeases
  | getAnyUnleased
deriving DecidableEq

abbrev Trace := List LeaseResp

abbrev Log := List LeaseCall

/-- Result and remaining trace of a run, forgetting the call log. -/
def resultOf {α : Type} (x : Option (α × Trace × Log)) : Option (α × Trace) :=
  x.map fun y => (y.1, y.2.1)

/-- Modelled from the spec: the effect of a leasing sub-range `Write` on
the block bytes (spec section 4.3). -/
def applySubWrite (data : Bytes) (offset : Nat) (bytes : Bytes) : Bytes :=
  data.take offset ++ bytes ++ data.drop (offset + bytes.length)

/-! ## The metadata cache operations (source `metadatacache`) -/

/-- Source `ReadEntry`: read the block, check the allocation bit,
deserialize the entry slot. -/
def ReadEntry (E S B : Nat) (chunk : Nat) (tr : Trace) :
    Option ((MetadataEntry × ServerName × Option Err) × Trace × Log) :=
  let metachunk := chunkToBlockID E chunk
  let offset := entryNumberToOffset S B (chunkToEntryNumber E chunk)
  match tr with
  | .readErr owner e :: tr =>
    some ((MetadataEntry.empty, owner, some e), tr, [.read metachunk])
  | .readOk data _version :: tr =>
    match getBitsetInData data (chunkToEntryNumber E chunk) with
    | none => none
    | some found =>
      if found = false then
        some ((MetadataEntry.empty, NoRedirect,
          some (.msg "entry does not exist to be able to be read")), tr, [.read metachunk])
      else
        match deserializeEntry ((data.drop offset).take S) with
        | none =>
          some ((MetadataEntry.empty, NoRedirect, some (.msg "entry decode error")), tr,
            [.read metachunk])
        | some entry => some ((entry, NoRedirect, none), tr, [.read metachunk])
  | _ => none

/-- Source: one iteration of the `UpdateEntry` retry loop.  The outer
`Option` is trace/fault undefinedness; the inner `Option` is `none` when
the loop goes around again.  The match binder `entry` shadows the `entry`
parameter exactly as the Go source does: the freshly deserialized value is
the one that is compared with `previous`, re-serialized and written
back. -/
def updateEntryIter (E S B : Nat) (chunk : Nat) (previous entry : MetadataEntry)
    (tr : Trace) : Option (Option (ServerName × Option Err) × Trace × Log) :=
  let metachunk := chunkToBlockID E chunk
  let offset := entryNumberToOffset S B (chunkToEntryNumber E chunk)
  match tr with
  | .readErr owner e :: tr => some (some (owner, some e), tr, [.read metachunk])
  | .readOk data version :: tr =>
    match getBitsetInData data (chunkToEntryNumber E chunk) with
    | none => none
    | some found =>
      if found = false then
        some (some (NoRedirect, some (.msg "entry does not exist to be able to be updated")),
          tr, [.read metachunk])
      else
        match deserializeEntry ((data.drop offset).take S) with
        | none =>
          some (some (NoRedirect, some (.msg "entry decode error")), tr, [.read metachunk])
        | some entry =>
          if entry ≠ previous then
            some (some (NoRedirect, some (.msg "entry does not match previous expected entry")),
              tr, [.read metachunk])
          else
            match serializeEntry S entry with
            | none =>
              some (some (NoRedirect, some (.msg "entry missized")), tr, [.read metachunk])
            | some updated =>
              if updated.length ≠ S then none
              else
                match tr with
                | .writeOk _ :: tr =>
                  some (some (NoRedirect, none), tr,
                    [.read metachunk, .write metachunk version offset updated])
                | .writeErr owner e :: tr =>
                  if version = 0 then
                    some (some (owner, some e), tr,
                      [.read metachunk, .write metachunk version offset updated])
                  else
                    some (none, tr, [.read metachunk, .write metachunk version offset updated])
                | _ => none
  | _ => none

/-- Source `UpdateEntry`: the optimistic retry loop, with structural fuel
for the unbounded Go `for` loop. -/
def UpdateEntry (E S B : Nat) :
    Nat → Nat → MetadataEntry → MetadataEntry → Trace →
    Option ((ServerName × Option Err) × Trace × Log)
  | 0, _, _, _, _ => none
  | fuel + 1, chunk, previous, entry, tr =>
    match updateEntryIter E S B chunk previous entry tr with
    | none => none
    | some (some r, tr1, log1) => some (r, tr1, log1)
    | some (none, tr1, log1) =>
      match UpdateEntry E S B fuel chunk previous entry tr1 with
      | none => none
      | some (r, tr2, log2) => some (r, tr2, log1 ++ log2)

/-- Source: one iteration of the `DeleteEntry` retry loop; instead of
rewriting the slot it clears the allocation bit. -/
def deleteEntryIter (E S B : Nat) (chunk : Nat) (previous : MetadataEntry)
    (tr : Trace) : Option (Option (ServerName × Option Err) × Trace × Log) :=
  let metachunk := chunkToBlockID E chunk
  let offset := entryNumberToOffset S B (chunkToEntryNumber E chunk)
  match tr with
  | .readErr owner e :: tr => some (some (owner, some e), tr, [.read metachunk])
  | .readOk data version :: tr =>
    match getBitsetInData data (chunkToEntryNumber E chunk) with
    | none => none
    | some found =>
      if found = false then
        some (some (NoRedirect, some (.msg "entry does not exist to be able to be deleted")),
          tr, [.read metachunk])
      else
        match deserializeEntry ((data.drop offset).take S) with
        | none =>
          some (some (NoRedirect, some (.msg "entry decode error")), tr, [.read metachunk])
        | some entry =>
          if entry ≠ previous then
            some (some (NoRedirect, some (.msg "entry does not match previous expected entry")),
              tr, [.read metachunk])
          else
            match updateBitsetInData data (chunkToEntryNumber E chunk) false with
            | none => none
            | some (updateOffset, newData) =>
              match tr with
              | .writeOk _ :: tr =>
                some (some (NoRedirect, none), tr,
                  [.read metachunk, .write metachunk version updateOffset newData])
              | .writeErr owner e :: tr =>
                if version = 0 then
                  some (some (owner, some e), tr,
                    [.read metachunk, .write metachunk version updateOffset newData])
                else
                  some (none, tr,
                    [.read metachunk, .write metachunk version updateOffset newData])
              | _ => none
  | _ => none

/-- Source `DeleteEntry`: the optimistic retry loop around
`deleteEntryIter`. -/
def DeleteEntry (E S B : Nat) :
    Nat → Nat → MetadataEntry → Trace →
    Option ((ServerName × Option Err) × Trace × Log)
  | 0, _, _, _ => none
  | fuel + 1, chunk, previous, tr =>
    match deleteEntryIter E S B chunk previous tr with
    | none => none
    | some (some r, tr1, log1) => some (r, tr1, log1)
    | some (none, tr1, log1) =>
      match DeleteEntry E S B fuel chunk previous tr1 with
      | none => none
      | some (r, tr2, log2) => some (r, tr2, log1 ++ log2)

/-- Source `updateBitset`: read the block, bail out reporting a clobber
when the bit already has the requested value, otherwise CAS-write the
updated bitset cell.  Returns `(noclobber, err)`. -/
def updateBitset (B : Nat) (metachunk index : Nat) (value : Bool) (tr : Trace) :
    Option ((Bool × Option Err) × Trace × Log) :=
  match tr with
  | .readErr _owner e :: tr => some ((false, some e), tr, [.read metachunk])
  | .readOk data version :: tr =>
    match getBitsetInData (data.take B) index with
    | none => none
    | some existingValue =>
      if existingValue = value then some ((false, none), tr, [.read metachunk])
      else
        match updateBitsetInData (data.take B) index value with
        | none => none
        | some (offset, newData) =>
          match tr with
          | .writeOk _ :: tr =>
            some ((true, none), tr, [.read metachunk, .write metachunk version offset newData])
          | .writeErr _owner e :: tr =>
            some ((false, some e), tr,
              [.read metachunk, .write metachunk version offset newData])
          | _ => none
  | _ => none

/-- Source `findFreeChunkIn`: read a block and scan its bitset.  Returns
`(index, found, err)`. -/
def findFreeChunkIn (B : Nat) (metachunk : Nat) (tr : Trace) :
    Option ((Nat × Bool × Option Err) × Trace × Log) :=
  match tr with
  | .readErr _owner e :: tr => some ((0, false, some e), tr, [.read metachunk])
  | .readOk data _version :: tr =>
    match findAvailableCell (data.take B) with
    | none => none
    | some (cellIndex, found) =>
      if found then some ((cellIndex, true, none), tr, [.read metachunk])
      else some ((0, false, none), tr, [.read metachunk])
  | _ => none

/-- Source: the loop body of `findAnyLeasedFreeChunk` over the listed
leases. -/
def findLeasedLoop (B : Nat) :
    List Nat → Trace → Option ((Nat × Nat × Bool × Option Err) × Trace × Log)
  | [], tr => some ((0, 0, false, none), tr, [])
  | metachunk :: leases, tr =>
    match findFreeChunkIn B metachunk tr with
    | none => none
    | some ((_, _, some e), tr1, log1) => some ((0, 0, false, some e), tr1, log1)
    | some ((index, found, none), tr1, log1) =>
      if found then some ((metachunk, index, true, none), tr1, log1)
      else
        match findLeasedLoop B leases tr1 with
        | none => none
        | some (r, tr2, log2) => some (r, tr2, log1 ++ log2)

/-- Source `findAnyLeasedFreeChunk`: list the held leases and scan each in
turn.  Returns `(metadataID, index, found, err)`. -/
def findAnyLeasedFreeChunk (B : Nat) (tr : Trace) :
    Option ((Nat × Nat × Bool × Option Err) × Trace × Log) :=
  match tr with
  | .leasesErr e :: tr => some ((0, 0, false, some e), tr, [.listLeases])
  | .leasesOk leases :: tr =>
    match findLeasedLoop B leases tr with
    | none => none
    | some (r, tr1, log1) => some (r, tr1, .listLeases :: log1)
  | _ => none

/-- Source: the unbounded acquire-and-scan loop of `findAnyFreeChunk`,
with structural fuel. -/
def findUnleasedLoop (B : Nat) :
    Nat → Trace → Option ((Nat × Nat × Option Err) × Trace × Log)
  | 0, _ => none
  | fuel + 1, tr =>
    match tr with
    | .unleasedErr e :: tr => some ((0, 0, some e), tr, [.getAnyUnleased])
    | .unleasedOk metadataID :: tr =>
      match findFreeChunkIn B metadataID tr with
      | none => none
      | some ((_, _, some e), tr1, log1) => some ((0, 0, some e), tr1, .getAnyUnleased :: log1)
      | some ((index, found, none), tr1, log1) =>
        if found then some ((metadataID, index, none), tr1, .getAnyUnleased :: log1)
        else
          match findUnleasedLoop B fuel tr1 with
          | none => none
          | some (r, tr2, log2) => some (r, tr2, .getAnyUnleased :: (log1 ++ log2))
    | _ => none

/-- Source `findAnyFreeChunk`: prefer a free slot in an already-leased
block, otherwise acquire unleased blocks and scan them. -/
def findAnyFreeChunk (B : Nat) (fuelF : Nat) (tr : Trace) :
    Option ((Nat × Nat × Option Err) × Trace × Log) :=
  match findAnyLeasedFreeChunk B tr with
  | none => none
  | some ((_, _, _, some e), tr1, log1) => some ((0, 0, some e), tr1, log1)
  | some ((metadataID, index, found, none), tr1, log1) =>
    if found then some ((metadataID, index, none), tr1, log1)
    else
      match findUnleasedLoop B fuelF tr1 with
      | none => none
      | some (r, tr2, log2) => some (r, tr2, log1 ++ log2)

/-- Source: one iteration of the `NewEntry` allocation loop. -/
def newEntryIter (E B : Nat) (fuelF : Nat) (tr : Trace) :
    Option (Option (Nat × Option Err) × Trace × Log) :=
  match findAnyFreeChunk B fuelF tr with
  | none => none
  | some ((_, _, some e), tr1, log1) => some (some (0, some e), tr1, log1)
  | some ((metachunk, index, none), tr1, log1) =>
    match updateBitset B metachunk index true tr1 with
    | none => none
    | some ((_, some e), tr2, log2) => some (some (0, some e), tr2, log1 ++ log2)
    | some ((noclobber, none), tr2, log2) =>
      if noclobber then
        match entryAndBlockToChunkNum E metachunk index with
        | none => none
        | some c => some (some (c, none), tr2, log1 ++ log2)
      else some (none, tr2, log1 ++ log2)

/-- Source `NewEntry`: allocate a free slot, CAS-set its bit, restart on
clobber; with structural fuel for the unbounded loop. -/
def NewEntry (E B : Nat) :
    Nat → Nat → Trace → Option ((Nat × Option Err) × Trace × Log)
  | 0, _, _ => none
  | fuel + 1, fuelF, tr =>
    match newEntryIter E B fuelF tr with
    | none => none
    | some (some r, tr1, log1) => some (r, tr1, log1)
    | some (none, tr1, log1) =>
      match NewEntry E B fuel fuelF tr1 with
      | none => none
      | some (r, tr2, log2) => some (r, tr2, log1 ++ log2)

/-! ## Chunkserver RPC adapters (source `rpc` package)

The twirp-generated request/response structs live outside the available
source; `Chunkserver_Read_Result` is modelled from the spec RPC table
(data, version, error string). -/

/-- Modelled from the spec: the wire response of the chunkserver `Read`
RPC. -/
structure Chunkserver_Read_Result where
  data : Bytes
  version : Nat
  error : String
deriving DecidableEq

/-- Source `proxyChunkserverAsTwirp.Read` (server side): run the
underlying Read, then place data, observed version and the error message
into the response.  An error with an empty message hits the source check
"expected nonempty error code" (a runtime fault), modelled by `none`. -/
def proxyChunkserverAsTwirpRead (data : Bytes) (version : Nat)
    (err : Option String) : Option Chunkserver_Read_Result :=
  match err with
  | none => some ⟨data, version, ""⟩
  | some m => if m = "" then none else some ⟨data, version, m⟩

/-- Source `proxyTwirpAsChunkserver.Read` (client side): a transport error
(`Sum.inr`) yields `(nil, 0, err)`; a response with a non-empty error
string yields that message as the error together with the version from the
response; otherwise data and version are returned. -/
def proxyTwirpAsChunkserverRead :
    Chunkserver_Read_Result ⊕ String → Bytes × Nat × Option String
  | .inr e => ([], 0, some e)
  | .inl result =>
    if result.error ≠ "" then ([], result.version, some result.error)
    else (result.data, result.version, none)

/-! ## Concrete blocks used by closed theorems and witnesses

Laid out for `E = 3`, `S = 16`, `B = 1`: one bitset byte followed by eight
16-byte entry slots (129 bytes). -/

/-- Block whose allocation bit 1 is set and whose slots are all zero (slot
1 deserializes to the zero entry). -/
def blockA : Bytes := 2 :: List.replicate 128 0

/-- Block with an empty allocation bitset. -/
def blockFree : Bytes := List.replicate 129 0

/-- Block whose allocation bit 0 is set. -/
def blockTaken : Bytes := 1 :: List.replicate 128 0

/-! # Theorems -/

/-! ### Round-trip lemmas for the codec -/

theorem natOfDigits_natDigits : ∀ fuel n, n ≤ fuel →
    natOfDigits (natDigits fuel n) = n := by
  intro fuel
  induction fuel with
  | zero =>
    intro n h
    interval_cases n
    rfl
  | succ fuel ih =>
    intro n h
    match n with
    | 0 => rfl
    | n + 1 =>
      have hdiv : (n + 1) / 256 ≤ fuel := by
        have h1 : (n + 1) / 256 < n + 1 := Nat.div_lt_self (Nat.succ_pos n) (by omega)
        omega
      simp only [natDigits, natOfDigits, ih _ hdiv]
      omega

theorem take_length_append (l t : Bytes) : (l ++ t).take l.length = l :=
  List.take_left l t

theorem drop_length_append (l t : Bytes) : (l ++ t).drop l.length = t :=
  List.drop_left l t

theorem natDec_natEnc (n : Nat) (t : Bytes) :
    natDec (natEnc n ++ t) = some (n, t) := by
  simp only [natEnc, List.cons_append, natDec, List.length_append]
  rw [if_pos (Nat.le_add_right _ _), take_length_append, drop_length_append,
    natOfDigits_natDigits n n (Nat.le_refl n)]

theorem decodeAddrs_encodeAddrs : ∀ (l : List Bytes) (t : Bytes),
    decodeAddrs l.length (encodeAddrs l ++ t) = some (l, t) := by
  intro l
  induction l with
  | nil => intro t; rfl
  | cons a rest ih =>
    intro t
    simp only [encodeAddrs, List.length_cons, decodeAddrs, List.append_assoc,
      natDec_natEnc]
    rw [if_pos (by simp [List.length_append]), take_length_append,
      drop_length_append, ih t]

theorem decodeEntryFrom_encodeEntry (e : MetadataEntry) (t : Bytes) :
    decodeEntryFrom (encodeEntry e ++ t) = some (e, t) := by
  simp only [encodeEntry, decodeEntryFrom, List.append_assoc, natDec_natEnc,
    decodeAddrs_encodeAddrs]

/-- Shared round-trip fact: a successful `serializeEntry` yields exactly
`S` bytes and `deserializeEntry` recovers the entry. -/
theorem serializeEntry_spec (S : Nat) (e : MetadataEntry) (out : Bytes)
    (h : serializeEntry S e = some out) :
    out.length = S ∧ deserializeEntry out = some e := by
  unfold serializeEntry at h
  by_cases hle : (encodeEntry e).length ≤ S
  · rw [if_pos hle] at h
    cases h
    constructor
    · simp [List.length_append, List.length_replicate]
      omega
    · simp [deserializeEntry, decodeEntryFrom_encodeEntry]
  · rw [if_neg hle] at h
    cases h

/-- C3: for every `MetadataEntry` on which `serializeEntry` succeeds, the
result is exactly `EntrySize` bytes long and `deserializeEntry` applied to
it returns the original entry. -/
theorem serializeEntry_roundtrip (S : Nat) (e : MetadataEntry) (out : Bytes)
    (h : serializeEntry S e = some out) :
    out.length = S ∧ deserializeEntry out = some e :=
  serializeEntry_spec S e out h

/-- Witness for C3 at a concrete entry and `S = 16`. -/
theorem serializeEntry_roundtrip_witness :
    serializeEntry 16 ⟨[[1, 2]], 3⟩ = some ([1, 3, 1, 1, 1, 2, 1, 2] ++ List.replicate 8 0) ∧
    ([1, 3, 1, 1, 1, 2, 1, 2] ++ List.replicate 8 0 : Bytes).length = 16 ∧
    deserializeEntry ([1, 3, 1, 1, 1, 2, 1, 2] ++ List.replicate 8 0) = some ⟨[[1, 2]], 3⟩ :=
  ⟨by decide, serializeEntry_roundtrip 16 ⟨[[1, 2]], 3⟩ _ (by decide)⟩

/-- C5: composing a block id and an entry index and splitting again is the
identity; the composed chunk number is the plain bit concatenation
`m * 2^E + i`. -/
theorem chunkNum_split_inverse (E m i : Nat) (h0 : 0 < m)
    (hm : m < 2 ^ (64 - E)) (hi : i < 2 ^ E) :
    entryAndBlockToChunkNum E m i = some (m * 2 ^ E + i) ∧
    chunkToBlockID E (m * 2 ^ E + i) = m ∧
    chunkToEntryNumber E (m * 2 ^ E + i) = i := by
  have hE : E < 64 := by
    by_contra hE
    have : 64 - E = 0 := by omega
    rw [this] at hm
    omega
  have hpow : m * 2 ^ E < 2 ^ 64 := by
    calc m * 2 ^ E < 2 ^ (64 - E) * 2 ^ E :=
          Nat.mul_lt_mul_of_pos_right hm (Nat.two_pow_pos E)
    _ = 2 ^ 64 := by rw [← Nat.pow_add]; congr 1; omega
  refine ⟨?_, ?_, ?_⟩
  · unfold entryAndBlockToChunkNum
    rw [if_neg (by
      push_neg
      refine ⟨by omega, ?_⟩
      rw [Nat.shiftLeft_eq, Nat.one_mul]
      omega)]
    rw [Nat.shiftLeft_eq, Nat.mod_eq_of_lt hpow, Nat.mul_comm m,
      ← Nat.mul_add_lt_is_or hi, Nat.mul_comm]
  · unfold chunkToBlockID
    rw [Nat.shiftRight_eq_div_pow, Nat.mul_comm m, Nat.mul_add_div (Nat.two_pow_pos E),
      Nat.div_eq_of_lt hi]
    omega
  · unfold chunkToEntryNumber
    rw [Nat.shiftLeft_eq, Nat.one_mul, Nat.and_pow_two_sub_one_eq_mod,
      Nat.mul_comm m, Nat.mul_add_mod, Nat.mod_eq_of_lt hi]

/-- Witness for C5 at `E = 3`, `m = 5`, `i = 4`. -/
theorem chunkNum_split_inverse_witness :
    entryAndBlockToChunkNum 3 5 4 = some 44 ∧
    chunkToBlockID 3 44 = 5 ∧ chunkToEntryNumber 3 44 = 4 :=
  chunkNum_split_inverse 3 5 4 (by decide) (by decide) (by decide)

theorem byte255_bits : ∀ k < 8, (255 : Nat) &&& (1 <<< k) ≠ 0 := by decide

set_option maxRecDepth 4096 in
theorem findFirstZero_isSome : ∀ c < 256, c ≠ 255 →
    (findFirstZero c).isSome = true := by decide

set_option maxRecDepth 4096 in
theorem findFirstZero_getD : ∀ c < 256, c ≠ 255 →
    (findFirstZero c).getD 0 < 8 ∧
    c &&& (1 <<< ((findFirstZero c).getD 0)) = 0 ∧
    ∀ w < (findFirstZero c).getD 0, c &&& (1 <<< w) ≠ 0 := by decide

theorem findFirstZero_spec (c : Nat) (hc : c < 256) (hne : c ≠ 255) :
    ∃ z, findFirstZero c = some z ∧ z < 8 ∧ c &&& (1 <<< z) = 0 ∧
      ∀ w < z, c &&& (1 <<< w) ≠ 0 := by
  obtain ⟨z0, hfz⟩ := Option.isSome_iff_exists.mp (findFirstZero_isSome c hc hne)
  have hd := findFirstZero_getD c hc hne
  rw [hfz] at hd
  simp only [Option.getD_some] at hd
  exact ⟨z0, hfz, hd.1, hd.2.1, hd.2.2⟩

theorem getBitsetInData_cons_lt (c : Nat) (rest : Bytes) (j : Nat) (h : j < 8) :
    getBitsetInData (c :: rest) j = some (decide (c &&& (1 <<< j) ≠ 0)) := by
  unfold getBitsetInData
  rw [Nat.div_eq_of_lt h, Nat.mod_eq_of_lt h]
  simp

theorem getBitsetInData_cons_ge (c : Nat) (rest : Bytes) (j : Nat) (h : 8 ≤ j) :
    getBitsetInData (c :: rest) j = getBitsetInData rest (j - 8) := by
  unfold getBitsetInData
  have h1 : j / 8 = (j - 8) / 8 + 1 := by omega
  have h2 : j % 8 = (j - 8) % 8 := by omega
  rw [h1, h2]
  simp

/-- C8: with genuine bytes, the free-slot scan finds exactly the lowest
clear bit of the bitset, and reports not-found only when every bit is
set. -/
theorem findAvailableCell_lowest_free_bit : ∀ (bitset : Bytes),
    (∀ b ∈ bitset, b < 256) →
    ∃ r, findAvailableCell bitset = some r ∧
      ((r.2 = true ∧ getBitsetInData bitset r.1 = some false ∧
          ∀ j < r.1, getBitsetInData bitset j = some true) ∨
        (r.2 = false ∧ r.1 = 0 ∧
          ∀ j < 8 * bitset.length, getBitsetInData bitset j = some true)) := by
  intro bitset
  induction bitset with
  | nil =>
    intro _
    exact ⟨(0, false), rfl, Or.inr ⟨rfl, rfl, by intro j hj; simp at hj⟩⟩
  | cons c rest ih =>
    intro hb
    have hc : c < 256 := hb c (List.mem_cons_self _ _)
    have hrest : ∀ b ∈ rest, b < 256 := fun b h => hb b (List.mem_cons_of_mem _ h)
    by_cases h255 : c = 255
    · subst h255
      obtain ⟨⟨n, flag⟩, hr, hd⟩ := ih hrest
      cases flag with
      | true =>
        rcases hd with ⟨-, hbit, hall⟩ | ⟨habs, -, -⟩
        · refine ⟨(n + 8, true), ?_, Or.inl ⟨rfl, ?_, ?_⟩⟩
          · show findAvailableCell (255 :: rest) = some (n + 8, true)
            unfold findAvailableCell
            rw [if_neg (by simp), hr]
          · rw [getBitsetInData_cons_ge 255 rest (n + 8) (by omega)]
            simpa using hbit
          · intro j hj
            by_cases hj8 : j < 8
            · rw [getBitsetInData_cons_lt 255 rest j hj8]
              simp only [Option.some.injEq, decide_eq_true_eq]
              exact byte255_bits j hj8
            · rw [getBitsetInData_cons_ge 255 rest j (by omega)]
              exact hall (j - 8) (by omega)
        · exact absurd habs (by simp)
      | false =>
        rcases hd with ⟨habs, -, -⟩ | ⟨-, hn, hall⟩
        · exact absurd habs (by simp)
        · subst hn
          refine ⟨(0, false), ?_, Or.inr ⟨rfl, rfl, ?_⟩⟩
          · show findAvailableCell (255 :: rest) = some (0, false)
            unfold findAvailableCell
            rw [if_neg (by simp), hr]
          · intro j hj
            by_cases hj8 : j < 8
            · rw [getBitsetInData_cons_lt 255 rest j hj8]
              simp only [Option.some.injEq, decide_eq_true_eq]
              exact byte255_bits j hj8
            · rw [getBitsetInData_cons_ge 255 rest j (by omega)]
              refine hall (j - 8) ?_
              simp only [List.length_cons] at hj
              omega
    · obtain ⟨z0, hfz, hz8, hzero, hset⟩ := findFirstZero_spec c hc h255
      refine ⟨(z0, true), ?_, Or.inl ⟨rfl, ?_, ?_⟩⟩
      · unfold findAvailableCell
        rw [if_pos h255, hfz]
      · rw [getBitsetInData_cons_lt c rest z0 hz8]
        simp only [Option.some.injEq, decide_eq_false_iff_not, ne_eq, not_not]
        exact hzero
      · intro j hj
        have hj8 : j < 8 := Nat.lt_trans hj hz8
        rw [getBitsetInData_cons_lt c rest j hj8]
        simp only [Option.some.injEq, decide_eq_true_eq]
        exact hset j hj

/-- Witness for C8 on the bitset `[255, 7]`: cell 0 is skipped as full and
the lowest clear bit is bit 3 of cell 1, index 11. -/
theorem findAvailableCell_lowest_free_bit_witness :
    findAvailableCell [255, 7] = some (11, true) ∧
    getBitsetInData [255, 7] 11 = some false ∧
    getBitsetInData [255, 7] 10 = some true := by
  obtain ⟨r, hr, hd⟩ := findAvailableCell_lowest_free_bit [255, 7] (by decide)
  have hval : findAvailableCell [255, 7] = some (11, true) := by decide
  rw [hval] at hr
  cases hr
  rcases hd with ⟨-, hbit, hall⟩ | ⟨habs, -, -⟩
  · exact ⟨hval, hbit, hall 10 (by omega)⟩
  · exact absurd habs (by simp)


/-! ### Shared single-iteration lemmas for the retry loops -/

theorem updateEntryIter_writeOk (E S B chunk version v2 : Nat)
    (previous entry : MetadataEntry) (data updated : Bytes) (tr : Trace)
    (hbit : getBitsetInData data (chunkToEntryNumber E chunk) = some true)
    (hdes : deserializeEntry ((data.drop
      (entryNumberToOffset S B (chunkToEntryNumber E chunk))).take S) = some previous)
    (hser : serializeEntry S previous = some updated) :
    updateEntryIter E S B chunk previous entry (.readOk data version :: .writeOk v2 :: tr) =
      some (some (NoRedirect, none), tr,
        [.read (chunkToBlockID E chunk),
         .write (chunkToBlockID E chunk) version
           (entryNumberToOffset S B (chunkToEntryNumber E chunk)) updated]) := by
  have hlen : updated.length = S := (serializeEntry_spec S previous updated hser).1
  simp [updateEntryIter, hbit, hdes, hser, hlen]

theorem updateEntryIter_writeErr (E S B chunk version : Nat)
    (previous entry : MetadataEntry) (data updated : Bytes)
    (owner : ServerName) (e : Err) (tr : Trace)
    (hbit : getBitsetInData data (chunkToEntryNumber E chunk) = some true)
    (hdes : deserializeEntry ((data.drop
      (entryNumberToOffset S B (chunkToEntryNumber E chunk))).take S) = some previous)
    (hser : serializeEntry S previous = some updated) :
    updateEntryIter E S B chunk previous entry (.readOk data version :: .writeErr owner e :: tr) =
      some ((if version = 0 then some (owner, some e) else none), tr,
        [.read (chunkToBlockID E chunk),
         .write (chunkToBlockID E chunk) version
           (entryNumberToOffset S B (chunkToEntryNumber E chunk)) updated]) := by
  have hlen : updated.length = S := (serializeEntry_spec S previous updated hser).1
  simp [updateEntryIter, hbit, hdes, hser, hlen]
  split <;> rfl

theorem deleteEntryIter_writeOk (E S B chunk version v2 : Nat)
    (previous : MetadataEntry) (data : Bytes) (uoff : Nat) (newData : Bytes) (tr : Trace)
    (hbit : getBitsetInData data (chunkToEntryNumber E chunk) = some true)
    (hdes : deserializeEntry ((data.drop
      (entryNumberToOffset S B (chunkToEntryNumber E chunk))).take S) = some previous)
    (hupd : updateBitsetInData data (chunkToEntryNumber E chunk) false = some (uoff, newData)) :
    deleteEntryIter E S B chunk previous (.readOk data version :: .writeOk v2 :: tr) =
      some (some (NoRedirect, none), tr,
        [.read (chunkToBlockID E chunk),
         .write (chunkToBlockID E chunk) version uoff newData]) := by
  simp [deleteEntryIter, hbit, hdes, hupd]

theorem deleteEntryIter_writeErr (E S B chunk version : Nat)
    (previous : MetadataEntry) (data : Bytes) (uoff : Nat) (newData : Bytes)
    (owner : ServerName) (e : Err) (tr : Trace)
    (hbit : getBitsetInData data (chunkToEntryNumber E chunk) = some true)
    (hdes : deserializeEntry ((data.drop
      (entryNumberToOffset S B (chunkToEntryNumber E chunk))).take S) = some previous)
    (hupd : updateBitsetInData data (chunkToEntryNumber E chunk) false = some (uoff, newData)) :
    deleteEntryIter E S B chunk previous (.readOk data version :: .writeErr owner e :: tr) =
      some ((if version = 0 then some (owner, some e) else none), tr,
        [.read (chunkToBlockID E chunk),
         .write (chunkToBlockID E chunk) version uoff newData]) := by
  simp [deleteEntryIter, hbit, hdes, hupd]
  split <;> rfl

/-- C7: when the allocation bit of the chunk is clear, `ReadEntry` on a
locally owned block returns the zero entry, the no-redirect sentinel, and
the absence error. -/
theorem readEntry_deallocated_notFound (E S B chunk version : Nat) (data : Bytes) (tr : Trace)
    (hbit : getBitsetInData data (chunkToEntryNumber E chunk) = some false) :
    ReadEntry E S B chunk (.readOk data version :: tr) =
      some ((MetadataEntry.empty, NoRedirect,
        some (.msg "entry does not exist to be able to be read")), tr,
        [.read (chunkToBlockID E chunk)]) := by
  simp [ReadEntry, hbit]

set_option maxRecDepth 100000 in
/-- Witness for C7 on an all-clear bitset. -/
theorem readEntry_deallocated_notFound_witness :
    ReadEntry 3 16 1 9 [.readOk blockFree 1] =
      some ((MetadataEntry.empty, NoRedirect,
        some (.msg "entry does not exist to be able to be read")), [], [.read 1]) :=
  readEntry_deallocated_notFound 3 16 1 9 1 blockFree [] (by decide)

set_option maxRecDepth 100000 in
/-- C2 (counterexample): with block version 1 (non-zero), a failed Write
whose error class is NotOwner — not VersionMismatch — is not returned to
the caller: the loop retries, reads again and succeeds, so `UpdateEntry`
issues four leasing calls and reports success. -/
theorem updateEntry_retry_ignores_write_error_class :
    UpdateEntry 3 16 1 2 9 ⟨[], 0⟩ ⟨[], 1⟩
      [.readOk blockA 1, .writeErr "other-server" .notOwner, .readOk blockA 1, .writeOk 2] =
      some ((NoRedirect, none), [],
        [.read 1, .write 1 1 17 (List.replicate 16 0),
         .read 1, .write 1 1 17 (List.replicate 16 0)]) ∧
    Err.notOwner ≠ Err.versionMismatch := by decide

/-- C2 (amended): in the `UpdateEntry` and `DeleteEntry` retry loops, a
failed sub-range Write causes a retry exactly when the block version read
in that iteration was non-zero, regardless of the error class; when that
version was 0 the Write error and redirect are returned to the caller. -/
theorem updateEntry_deleteEntry_retry_policy
    (E S B fuel chunk version : Nat) (previous next : MetadataEntry)
    (data updated : Bytes) (uoff : Nat) (newData : Bytes)
    (owner : ServerName) (e : Err) (tr : Trace)
    (hbit : getBitsetInData data (chunkToEntryNumber E chunk) = some true)
    (hdes : deserializeEntry ((data.drop
      (entryNumberToOffset S B (chunkToEntryNumber E chunk))).take S) = some previous)
    (hser : serializeEntry S previous = some updated)
    (hupd : updateBitsetInData data (chunkToEntryNumber E chunk) false = some (uoff, newData)) :
    (version = 0 →
      UpdateEntry E S B (fuel + 1) chunk previous next
          (.readOk data version :: .writeErr owner e :: tr) =
        some ((owner, some e), tr,
          [.read (chunkToBlockID E chunk),
           .write (chunkToBlockID E chunk) version
             (entryNumberToOffset S B (chunkToEntryNumber E chunk)) updated])) ∧
    (version ≠ 0 →
      resultOf (UpdateEntry E S B (fuel + 1) chunk previous next
          (.readOk data version :: .writeErr owner e :: tr)) =
        resultOf (UpdateEntry E S B fuel chunk previous next tr)) ∧
    (version = 0 →
      DeleteEntry E S B (fuel + 1) chunk previous
          (.readOk data version :: .writeErr owner e :: tr) =
        some ((owner, some e), tr,
          [.read (chunkToBlockID E chunk),
           .write (chunkToBlockID E chunk) version uoff newData])) ∧
    (version ≠ 0 →
      resultOf (DeleteEntry E S B (fuel + 1) chunk previous
          (.readOk data version :: .writeErr owner e :: tr)) =
        resultOf (DeleteEntry E S B fuel chunk previous tr)) := by
  refine ⟨?_, ?_, ?_, ?_⟩
  · intro hv
    simp only [UpdateEntry]
    rw [updateEntryIter_writeErr E S B chunk version previous next data updated owner e tr
      hbit hdes hser, if_pos hv]
  · intro hv
    simp only [UpdateEntry]
    rw [updateEntryIter_writeErr E S B chunk version previous next data updated owner e tr
      hbit hdes hser, if_neg hv]
    cases h : UpdateEntry E S B fuel chunk previous next tr with
    | none => simp [resultOf, h]
    | some x =>
      rcases x with ⟨r, tr2, log2⟩
      simp [resultOf, h]
  · intro hv
    simp only [DeleteEntry]
    rw [deleteEntryIter_writeErr E S B chunk version previous data uoff newData owner e tr
      hbit hdes hupd, if_pos hv]
  · intro hv
    simp only [DeleteEntry]
    rw [deleteEntryIter_writeErr E S B chunk version previous data uoff newData owner e tr
      hbit hdes hupd, if_neg hv]
    cases h : DeleteEntry E S B fuel chunk previous tr with
    | none => simp [resultOf, h]
    | some x =>
      rcases x with ⟨r, tr2, log2⟩
      simp [resultOf, h]

set_option maxRecDepth 100000 in
/-- Witness for C2 (amended) at concrete versions 0 and 5. -/
theorem updateEntry_deleteEntry_retry_policy_witness :
    UpdateEntry 3 16 1 1 9 ⟨[], 0⟩ ⟨[], 1⟩ [.readOk blockA 0, .writeErr "B" .transport] =
      some (("B", some .transport), [], [.read 1, .write 1 0 17 (List.replicate 16 0)]) ∧
    resultOf (UpdateEntry 3 16 1 2 9 ⟨[], 0⟩ ⟨[], 1⟩
        [.readOk blockA 5, .writeErr "B" .transport]) =
      resultOf (UpdateEntry 3 16 1 1 9 ⟨[], 0⟩ ⟨[], 1⟩ []) ∧
    DeleteEntry 3 16 1 1 9 ⟨[], 0⟩ [.readOk blockA 0, .writeErr "B" .transport] =
      some (("B", some .transport), [], [.read 1, .write 1 0 0 [0]]) ∧
    resultOf (DeleteEntry 3 16 1 2 9 ⟨[], 0⟩ [.readOk blockA 5, .writeErr "B" .transport]) =
      resultOf (DeleteEntry 3 16 1 1 9 ⟨[], 0⟩ []) := by
  have h0 := updateEntry_deleteEntry_retry_policy 3 16 1 0 9 0 ⟨[], 0⟩ ⟨[], 1⟩ blockA
    (List.replicate 16 0) 0 [0] "B" .transport [] (by decide) (by decide) (by decide) (by decide)
  have h5 := updateEntry_deleteEntry_retry_policy 3 16 1 1 9 5 ⟨[], 0⟩ ⟨[], 1⟩ blockA
    (List.replicate 16 0) 0 [0] "B" .transport [] (by decide) (by decide) (by decide) (by decide)
  exact ⟨h0.1 rfl, h5.2.1 (by decide), h0.2.2.1 rfl, h5.2.2.2 (by decide)⟩

set_option maxRecDepth 100000 in
/-- C1 (code bug): `UpdateEntry` re-serializes the entry it just
deserialized — the Go binding shadows the `entry` parameter — so a
"successful" update writes the zero-padded encoding of the OLD entry, not
of `next`: here the written bytes are the encoding of `⟨[], 0⟩`, differ
from the encoding of `next = ⟨[], 1⟩`, and a subsequent `ReadEntry` still
returns the old entry. -/
theorem updateEntry_shadowing_writes_previous_entry :
    UpdateEntry 3 16 1 1 9 ⟨[], 0⟩ ⟨[], 1⟩ [.readOk blockA 1, .writeOk 2] =
      some ((NoRedirect, none), [], [.read 1, .write 1 1 17 (List.replicate 16 0)]) ∧
    serializeEntry 16 ⟨[], 0⟩ = some (List.replicate 16 0) ∧
    serializeEntry 16 ⟨[], 1⟩ = some ([1, 1, 0] ++ List.replicate 13 0) ∧
    (List.replicate 16 0 : Bytes) ≠ [1, 1, 0] ++ List.replicate 13 0 ∧
    ReadEntry 3 16 1 9 [.readOk (applySubWrite blockA 17 (List.replicate 16 0)) 2] =
      some ((⟨[], 0⟩, NoRedirect, none), [], [.read 1]) ∧
    (⟨[], 0⟩ : MetadataEntry) ≠ ⟨[], 1⟩ := by decide

/-- C4: when `NewEntry` finds a candidate `(m, i)` and the conditional
bit-set write succeeds, it returns the composed chunk number
`(m <<< E) | i`; when the chosen bit was already set at read time
(`updateBitset` reporting a clobber without error), it does not return
that chunk number but restarts the search loop. -/
theorem newEntry_returns_composed_chunkNum
    (E B fuel fuelF : Nat) (tr tr1 tr2 : Trace) (m i : Nat) (log1 log2 : Log)
    (hfind : findAnyFreeChunk B fuelF tr = some ((m, i, none), tr1, log1)) :
    (∀ (h2 : updateBitset B m i true tr1 = some ((true, none), tr2, log2)),
      m ≠ 0 → i < 2 ^ E →
      NewEntry E B (fuel + 1) fuelF tr =
        some (((((m <<< E) % 2 ^ 64) ||| i), none), tr2, log1 ++ log2)) ∧
    (∀ (h3 : updateBitset B m i true tr1 = some ((false, none), tr2, log2)),
      resultOf (NewEntry E B (fuel + 1) fuelF tr) = resultOf (NewEntry E B fuel fuelF tr2)) := by
  constructor
  · intro h2 hm hi
    have hcomp : entryAndBlockToChunkNum E m i = some (((m <<< E) % 2 ^ 64) ||| i) := by
      unfold entryAndBlockToChunkNum
      rw [if_neg]
      push_neg
      exact ⟨hm, by rw [Nat.shiftLeft_eq, Nat.one_mul]; omega⟩
    simp [NewEntry, newEntryIter, hfind, h2, hcomp]
  · intro h3
    simp only [NewEntry, newEntryIter, hfind, h3]
    cases h : NewEntry E B fuel fuelF tr2 with
    | none => simp [resultOf, h]
    | some x =>
      rcases x with ⟨r, tr3, log3⟩
      simp [resultOf, h]

set_option maxRecDepth 100000 in
/-- Witness for C4: allocating in leased block 1 at free index 0 yields
chunk number `(1 <<< 3) | 0 = 8`; a clobbered bit restarts the loop. -/
theorem newEntry_returns_composed_chunkNum_witness :
    NewEntry 3 1 1 1 [.leasesOk [1], .readOk blockFree 1, .readOk blockFree 1, .writeOk 2] =
      some ((8, none), [], [.listLeases, .read 1, .read 1, .write 1 1 0 [1]]) ∧
    resultOf (NewEntry 3 1 2 1 [.leasesOk [1], .readOk blockFree 1, .readOk blockTaken 1]) =
      resultOf (NewEntry 3 1 1 1 []) := by
  have hA := (newEntry_returns_composed_chunkNum 3 1 0 1
      [.leasesOk [1], .readOk blockFree 1, .readOk blockFree 1, .writeOk 2]
      [.readOk blockFree 1, .writeOk 2] [] 1 0 [.listLeases, .read 1] [.read 1, .write 1 1 0 [1]]
      (by decide)).1 (by decide) (by decide) (by decide)
  have hB := (newEntry_returns_composed_chunkNum 3 1 1 1
      [.leasesOk [1], .readOk blockFree 1, .readOk blockTaken 1]
      [.readOk blockTaken 1] [] 1 0 [.listLeases, .read 1] [.read 1]
      (by decide)).2 (by decide)
  exact ⟨hA, hB⟩

/-- C10: if the conditional write inside the bit-set step of `NewEntry`
fails with any error — a lost block-version CAS included — `NewEntry`
returns `(0, err)` to its caller without consuming further leasing
responses; the only internally retried case is `updateBitset` reporting
`(false, nil)` (bit already set at read time). -/
theorem newEntry_error_propagation (E B fuel fuelF : Nat) (tr tr1 tr2 : Trace) (m i : Nat)
    (log1 log2 : Log) (flag : Bool) (e : Err)
    (hfind : findAnyFreeChunk B fuelF tr = some ((m, i, none), tr1, log1)) :
    (∀ (h2 : updateBitset B m i true tr1 = some ((flag, some e), tr2, log2)),
      NewEntry E B (fuel + 1) fuelF tr = some ((0, some e), tr2, log1 ++ log2)) ∧
    (∀ (h3 : updateBitset B m i true tr1 = some ((false, none), tr2, log2)),
      resultOf (NewEntry E B (fuel + 1) fuelF tr) = resultOf (NewEntry E B fuel fuelF tr2)) := by
  constructor
  · intro h2
    simp [NewEntry, newEntryIter, hfind, h2]
  · intro h3
    simp only [NewEntry, newEntryIter, hfind, h3]
    cases h : NewEntry E B fuel fuelF tr2 with
    | none => simp [resultOf, h]
    | some x =>
      rcases x with ⟨r, tr3, log3⟩
      simp [resultOf, h]

set_option maxRecDepth 100000 in
/-- Witness for C10: a version-mismatch write failure is returned, not
retried; a clobbered bit restarts the loop. -/
theorem newEntry_error_propagation_witness :
    NewEntry 3 1 1 1 [.leasesOk [1], .readOk blockFree 1, .readOk blockFree 1,
        .writeErr "X" .versionMismatch] =
      some ((0, some .versionMismatch), [], [.listLeases, .read 1, .read 1, .write 1 1 0 [1]]) ∧
    resultOf (NewEntry 3 1 2 1 [.leasesOk [2], .readOk blockFree 7, .readOk blockTaken 7]) =
      resultOf (NewEntry 3 1 1 1 []) := by
  have hA := (newEntry_error_propagation 3 1 0 1
      [.leasesOk [1], .readOk blockFree 1, .readOk blockFree 1, .writeErr "X" .versionMismatch]
      [.readOk blockFree 1, .writeErr "X" .versionMismatch] [] 1 0
      [.listLeases, .read 1] [.read 1, .write 1 1 0 [1]] false .versionMismatch
      (by decide)).1 (by decide)
  have hB := (newEntry_error_propagation 3 1 1 1
      [.leasesOk [2], .readOk blockFree 7, .readOk blockTaken 7]
      [.readOk blockTaken 7] [] 2 0 [.listLeases, .read 2] [.read 2] false .versionMismatch
      (by decide)).2 (by decide)
  exact ⟨hA, hB⟩

/-! ### Frame lemmas for the single-byte bitset write -/

set_option maxRecDepth 10000 in
theorem clearBit_and_mask : ∀ c < 256, ∀ r < 8,
    (c &&& ((1 <<< r) ^^^ 255)) &&& (1 <<< r) = 0 := by decide

set_option maxRecDepth 100000 in
theorem clearBit_other_bits : ∀ c < 256, ∀ r < 8, ∀ k < 8, k ≠ r →
    (c &&& ((1 <<< r) ^^^ 255)) &&& (1 <<< k) = c &&& (1 <<< k) := by decide

theorem applySubWrite_length (data : Bytes) (q : Nat) (bs : Bytes)
    (h : q + bs.length ≤ data.length) :
    (applySubWrite data q bs).length = data.length := by
  simp [applySubWrite]
  omega

theorem applySubWrite_getElem_ne (data : Bytes) (q b j : Nat)
    (hq : q < data.length) (hj : j ≠ q) :
    (applySubWrite data q [b])[j]? = data[j]? := by
  unfold applySubWrite
  rcases Nat.lt_or_ge j q with hlt2 | hge
  · have h1 : ((data.take q ++ [b]) ++ data.drop (q + [b].length))[j]? =
        (data.take q ++ [b])[j]? :=
      List.getElem?_append_left (by simp; omega)
    have h2 : (data.take q ++ [b])[j]? = (data.take q)[j]? :=
      List.getElem?_append_left (by simp; omega)
    rw [h1, h2, List.getElem?_take_of_lt hlt2]
  · have hgt : q < j := by omega
    have h1 : ((data.take q ++ [b]) ++ data.drop (q + [b].length))[j]? =
        (data.drop (q + [b].length))[j - (q + 1)]? := by
      rw [List.getElem?_append_right (by simp; omega)]
      congr 1
      simp
      omega
    rw [h1, List.getElem?_drop]
    congr 1
    simp
    omega

theorem applySubWrite_getElem_self (data : Bytes) (q b : Nat) (hq : q < data.length) :
    (applySubWrite data q [b])[q]? = some b := by
  unfold applySubWrite
  have h1 : ((data.take q ++ [b]) ++ data.drop (q + [b].length))[q]? =
      (data.take q ++ [b])[q]? :=
    List.getElem?_append_left (by simp; omega)
  have hlen : (data.take q).length = q := by simp; omega
  have h2 : (data.take q ++ [b])[q]? = [b][q - (data.take q).length]? :=
    List.getElem?_append_right (by rw [hlen])
  rw [h1, h2, hlen, Nat.sub_self]
  rfl

/-- C6: a successful `DeleteEntry` issues exactly one read and one
sub-range write; the write is one byte long, at offset `entryIndex / 8`,
and holds the old bitset cell with bit `entryIndex % 8` cleared.  Applying
that write changes no byte other than that single bitset cell, clears the
allocation bit of the entry, and leaves every other bit of the cell
unchanged. -/
theorem deleteEntry_single_byte_write
    (E S B fuel chunk version v2 : Nat) (data : Bytes) (previous : MetadataEntry)
    (cell q rem cell2 : Nat) (tr : Trace)
    (hbit : getBitsetInData data (chunkToEntryNumber E chunk) = some true)
    (hdes : deserializeEntry ((data.drop
      (entryNumberToOffset S B (chunkToEntryNumber E chunk))).take S) = some previous)
    (hcell : data[chunkToEntryNumber E chunk / 8]? = some cell)
    (hc256 : cell < 256)
    (hq32 : chunkToEntryNumber E chunk / 8 < 2 ^ 32)
    (hqdef : q = chunkToEntryNumber E chunk / 8)
    (hrem : rem = chunkToEntryNumber E chunk % 8)
    (hcell2 : cell2 = cell &&& ((1 <<< rem) ^^^ 255)) :
    DeleteEntry E S B (fuel + 1) chunk previous (.readOk data version :: .writeOk v2 :: tr) =
      some ((NoRedirect, none), tr,
        [.read (chunkToBlockID E chunk),
         .write (chunkToBlockID E chunk) version q [cell2]]) ∧
    (applySubWrite data q [cell2]).length = data.length ∧
    (∀ j < data.length, j ≠ q → (applySubWrite data q [cell2])[j]? = data[j]?) ∧
    getBitsetInData (applySubWrite data q [cell2]) (chunkToEntryNumber E chunk) = some false ∧
    (∀ k < 8, k ≠ rem →
      getBitsetInData (applySubWrite data q [cell2]) (8 * q + k) =
        getBitsetInData data (8 * q + k)) := by
  subst hcell2 hrem hqdef
  have hrem8 : chunkToEntryNumber E chunk % 8 < 8 := Nat.mod_lt _ (by omega)
  have hqlen : chunkToEntryNumber E chunk / 8 < data.length :=
    (List.getElem?_eq_some.mp hcell).1
  have hupd : updateBitsetInData data (chunkToEntryNumber E chunk) false =
      some (chunkToEntryNumber E chunk / 8,
        [cell &&& ((1 <<< (chunkToEntryNumber E chunk % 8)) ^^^ 255)]) := by
    unfold updateBitsetInData
    rw [hcell]
    have hmod : (chunkToEntryNumber E chunk / 8) % 2 ^ 32 =
        chunkToEntryNumber E chunk / 8 := Nat.mod_eq_of_lt hq32
    simp [hmod]
    exact hq32
  refine ⟨?_, ?_, ?_, ?_, ?_⟩
  · simp only [DeleteEntry]
    rw [deleteEntryIter_writeOk E S B chunk version v2 previous data _ _ tr hbit hdes hupd]
  · exact applySubWrite_length data _ _ (by simp; omega)
  · intro j _ hne
    exact applySubWrite_getElem_ne data _ _ j hqlen hne
  · unfold getBitsetInData
    rw [applySubWrite_getElem_self data _ _ hqlen]
    have h0 := clearBit_and_mask cell hc256 (chunkToEntryNumber E chunk % 8) hrem8
    simp [h0]
  · intro k hk hkne
    unfold getBitsetInData
    have e1 : (8 * (chunkToEntryNumber E chunk / 8) + k) / 8 =
        chunkToEntryNumber E chunk / 8 := by omega
    have e2 : (8 * (chunkToEntryNumber E chunk / 8) + k) % 8 = k := by omega
    rw [e1, e2, applySubWrite_getElem_self data _ _ hqlen, hcell]
    show some (decide ((cell &&& ((1 <<< (chunkToEntryNumber E chunk % 8)) ^^^ 255)) &&&
        (1 <<< k) ≠ 0)) = some (decide (cell &&& (1 <<< k) ≠ 0))
    rw [clearBit_other_bits cell hc256 (chunkToEntryNumber E chunk % 8) hrem8 k hk hkne]

set_option maxRecDepth 100000 in
/-- Witness for C6 on `blockA` (chunk 9, cell 2 at offset 0, cleared to
0): one one-byte write at offset 0; byte 17 and bit 3 are untouched. -/
theorem deleteEntry_single_byte_write_witness :
    DeleteEntry 3 16 1 1 9 ⟨[], 0⟩ [.readOk blockA 1, .writeOk 2] =
      some ((NoRedirect, none), [], [.read 1, .write 1 1 0 [0]]) ∧
    (applySubWrite blockA 0 [0]).length = blockA.length ∧
    (applySubWrite blockA 0 [0])[17]? = blockA[17]? ∧
    getBitsetInData (applySubWrite blockA 0 [0]) 1 = some false ∧
    getBitsetInData (applySubWrite blockA 0 [0]) 3 = getBitsetInData blockA 3 := by
  have h := deleteEntry_single_byte_write 3 16 1 0 9 1 2 blockA ⟨[], 0⟩ 2 0 1 0 []
    (by decide) (by decide) (by decide) (by decide) (by decide) (by decide) (by decide) (by decide)
  exact ⟨h.1, h.2.1, h.2.2.1 17 (by decide) (by decide), h.2.2.2.1,
    h.2.2.2.2 3 (by decide) (by decide)⟩

/-- C9: the server-side Read adapter always places the observed version in
the response and, on failure with a non-empty message, places exactly that
message; the client-side adapter, given a response with a non-empty error
string, returns an error with exactly that message together with the
version from the response (and no data). -/
theorem read_adapters_preserve_version_and_error
    (data : Bytes) (version : Nat) (m : String) (r : Chunkserver_Read_Result) :
    (proxyChunkserverAsTwirpRead data version none = some ⟨data, version, ""⟩) ∧
    (m ≠ "" → proxyChunkserverAsTwirpRead data version (some m) = some ⟨data, version, m⟩) ∧
    (r.error ≠ "" → proxyTwirpAsChunkserverRead (.inl r) = ([], r.version, some r.error)) := by
  refine ⟨rfl, ?_, ?_⟩
  · intro h
    simp [proxyChunkserverAsTwirpRead, h]
  · intro h
    simp [proxyTwirpAsChunkserverRead, h]

/-- Witness for C9 at concrete data, versions and messages. -/
theorem read_adapters_preserve_version_and_error_witness :
    proxyChunkserverAsTwirpRead [1] 7 none = some ⟨[1], 7, ""⟩ ∧
    proxyChunkserverAsTwirpRead [1] 7 (some "boom") = some ⟨[1], 7, "boom"⟩ ∧
    proxyTwirpAsChunkserverRead (.inl ⟨[9], 5, "bad"⟩) = ([], 5, some "bad") := by
  have h := read_adapters_preserve_version_and_error [1] 7 "boom" ⟨[9], 5, "bad"⟩
  exact ⟨h.1, h.2.1 (by decide), h.2.2 (by decide)⟩
